import Mathlib

/-!
Verification of the py-docling-function repository.

This file shallowly embeds the repository's code in Lean 4 and proves or
refutes the frozen claims about it.  The embedding covers:

* `src/app/DoclingChunker.py` / `src/app/docling_conversion.py` — the pure
  chunk-filtering pipeline (`is_good_chunk`, `clean_chunk`, `filter_chunks`),
  modelled character-for-character over `List Char`, including hand-rolled
  models of the five `re.search` patterns used by `is_good_chunk`.
* `src/app/ContentService.py` and `src/app/DoclingService.py` — the staged,
  blob-store-backed pipeline (`process`, `get_docling`, `_process_original`,
  `_check_markdown`), modelled as explicit state passing over an association
  list that plays the role of the Azure blob container.  External
  collaborators (blake3/sha256 digests, the docling `DocumentConverter`,
  markdown export) are abstract functions supplied through an environment
  record, exactly at the interface boundary the spec draws.
* `src/app/DoclingConverter.py` and the `DoclingConverter` in
  `src/app/docling_conversion.py` — the two `convert` entry points, the
  (dead) cache check `get_cached`, and email body/attachment conversion.
* `src/app/docling_add_doc.py` — the recursive document-tree merge.
* `DoclingService._process_email_multipart` — the multipart email walk.

Python strings are modelled as `List Char` (ASCII-faithful: `str.lower`,
`str.strip`, `\\w`, `\\s`, `\\d` are modelled on their ASCII meaning, which is
all the repository's data exercises).  Wall-clock timestamps are modelled by
a logical clock that ticks at each `datetime.now` call and at each blob
write.  Blob contents are modelled by a sum type recording which kind of
JSON payload was serialized; a `corrupt` case stands for stored bytes on
which pydantic validation raises.
-/

namespace PyDocling


/-! ## Python string primitives over `List Char` -/

/-- Python strings, modelled as lists of characters. -/
abbrev PyStr := List Char

/-- Convert a Lean string literal to the `PyStr` model. -/
def pystr (s : String) : PyStr := s.toList

/-- The whitespace characters stripped by Python's `str.strip()` (ASCII part). -/
def pyIsSpace (c : Char) : Bool :=
  c == ' ' || c == '\t' || c == '\n' || c == '\r' || c == '\x0b' || c == '\x0c'

/-- Python `str.strip()`: remove leading and trailing whitespace. -/
def pyStrip (s : PyStr) : PyStr :=
  ((s.dropWhile pyIsSpace).reverse.dropWhile pyIsSpace).reverse

/-- Python `str.lower()` (ASCII). -/
def pyLower (s : PyStr) : PyStr := s.map Char.toLower

/-- Python regex `\w` (ASCII): letters, digits and underscore. -/
def isWordChar (c : Char) : Bool := c.isAlphanum || c == '_'

/-- Word-ness of an optional character; out-of-string counts as non-word,
    as in the regex word-boundary `\b` semantics. -/
def wordO : Option Char → Bool
  | some c => isWordChar c
  | none => false

/-! ### Models of the five `re.search` patterns of `is_good_chunk`

Each matcher takes the character preceding the candidate position (for `\b`)
and the remaining suffix, and decides whether a match starts exactly there.
`reSearch` then tries every position, which is `re.search`'s semantics. -/

/-- Try a position matcher at every position of the string, tracking the
    preceding character for word boundaries. -/
def searchAux (m : Option Char → PyStr → Bool) (prev : Option Char) : PyStr → Bool
  | [] => m prev []
  | c :: cs => m prev (c :: cs) || searchAux m (some c) cs

/-- `re.search pattern s ≠ None`, for a position matcher `m`. -/
def reSearch (m : Option Char → PyStr → Bool) (s : PyStr) : Bool :=
  searchAux m none s

/-- After at least one digit of `\d+\b`: consume further digits greedily and
    then require a word boundary (end of string or a non-word character). -/
def digitsBoundary : PyStr → Bool
  | [] => true
  | c :: cs => if c.isDigit then digitsBoundary cs else !isWordChar c

/-- Matcher for `\bpage \d+\b` at a given position. -/
def matchPage (prev : Option Char) (s : PyStr) : Bool :=
  match s with
  | 'p' :: 'a' :: 'g' :: 'e' :: ' ' :: d :: rest =>
      !wordO prev && d.isDigit && digitsBoundary rest
  | _ => false

/-- `\b` immediately after a word character: end of string or non-word next. -/
def wordEndBoundary : PyStr → Bool
  | [] => true
  | c :: _ => !isWordChar c

/-- Matcher for `\bphone\b|\bfax\b` at a given position. -/
def matchPhoneFax (prev : Option Char) (s : PyStr) : Bool :=
  match s with
  | 'p' :: 'h' :: 'o' :: 'n' :: 'e' :: rest => !wordO prev && wordEndBoundary rest
  | 'f' :: 'a' :: 'x' :: rest => !wordO prev && wordEndBoundary rest
  | _ => false

/-- Three digits at the head of the string (`\d{3}`). -/
def threeDigits : PyStr → Bool
  | a :: b :: c :: _ => a.isDigit && b.isDigit && c.isDigit
  | _ => false

/-- `[\s\-]?\d{3}`: an optional whitespace-or-hyphen, then three digits. -/
def sepThree (s : PyStr) : Bool :=
  threeDigits s ||
    (match s with
     | c :: cs => (pyIsSpace c || c == '-') && threeDigits cs
     | [] => false)

/-- Matcher for `\+\d{1,3}[\s\-]?\d{3}` at a given position (the existential
    unrolling of the 1-to-3-digit repetition with backtracking). -/
def matchIntl (_prev : Option Char) (s : PyStr) : Bool :=
  match s with
  | '+' :: a :: rest =>
      a.isDigit &&
        (sepThree rest ||
          (match rest with
           | b :: r2 =>
               b.isDigit &&
                 (sepThree r2 ||
                   (match r2 with
                    | c :: r3 => c.isDigit && sepThree r3
                    | [] => false))
           | [] => false))
  | _ => false

/-- The character class `[\w\.-]` of the email pattern. -/
def clsChar (c : Char) : Bool := isWordChar c || c == '.' || c == '-'

/-- After one `[\w\.-]` character of the local part: consume further class
    characters until the literal `@`; return the suffix after `@`. -/
def localAfter : PyStr → Option PyStr
  | [] => none
  | '@' :: cs => some cs
  | c :: cs => if clsChar c then localAfter cs else none

/-- Having consumed at least one `[\w\.-]` character of the domain: succeed if
    a `\.` followed by a word character can be reached while consuming class
    characters (the backtracking of `[\w\.-]+\.\w+\b`; the trailing `\b`
    always holds after a maximal `\w+` run). -/
def domainAfter : PyStr → Bool
  | [] => false
  | c :: cs =>
      (c == '.' &&
        (match cs with
         | d :: _ => isWordChar d
         | [] => false)) ||
      (clsChar c && domainAfter cs)

/-- Matcher for `\b[\w\.-]+@[\w\.-]+\.\w+\b` at a given position. -/
def matchEmail (prev : Option Char) (s : PyStr) : Bool :=
  match s with
  | [] => false
  | c :: cs =>
      (wordO prev != isWordChar c) && clsChar c &&
        (match localAfter cs with
         | some rest =>
             (match rest with
              | d :: ds => clsChar d && domainAfter ds
              | [] => false)
         | none => false)

/-- `[^\s]+`: at least one non-whitespace character at the head. -/
def nonSpaceHead : PyStr → Bool
  | c :: _ => !pyIsSpace c
  | [] => false

/-- Matcher for `https?://[^\s]+` at a given position. -/
def matchUrl (_prev : Option Char) (s : PyStr) : Bool :=
  match s with
  | 'h' :: 't' :: 't' :: 'p' :: 's' :: ':' :: '/' :: '/' :: rest => nonSpaceHead rest
  | 'h' :: 't' :: 't' :: 'p' :: ':' :: '/' :: '/' :: rest => nonSpaceHead rest
  | _ => false

/-! ## `DoclingChunker.py` (identical functions in `docling_conversion.py`) -/

/-- Python's substring test `pat in hay`. -/
def py_in (pat : PyStr) : PyStr → Bool
  | [] => pat.isEmpty
  | c :: cs => pat.isPrefixOf (c :: cs) || py_in pat cs

/-- The boilerplate keyword list of `is_good_chunk`. -/
def boilerplate_keywords : List PyStr :=
  [pystr "no part may be copied",
   pystr "is provided only to investment professionals",
   pystr "this document is not a research report or research material",
   pystr "this message is for information purposes only",
   pystr "this document is being provided for the exclusive use of"]

/-- `DoclingChunker.is_good_chunk`.  Note that, as in the source, the
    boilerplate keywords are matched against the *original* chunk
    (case-sensitively), while the regexes run on the stripped, lowered text. -/
def is_good_chunk (chunk : PyStr) : Bool :=
  let text := pyLower (pyStrip chunk)
  let is_boilerplate := boilerplate_keywords.any (fun kw => py_in kw chunk)
  let has_metadata :=
    reSearch matchPage text || reSearch matchPhoneFax text ||
    reSearch matchIntl text || reSearch matchEmail text || reSearch matchUrl text
  !is_boilerplate && !has_metadata

/-- Scanner for one pass of Python `str.replace(pat, "")` with a nonempty
    pattern: left-to-right, non-overlapping.  The `Nat` argument counts
    characters of a just-matched occurrence still to be discarded (so the
    recursion is structural in the string). -/
def removeAllGo (pat : PyStr) : Nat → PyStr → PyStr
  | _, [] => []
  | Nat.succ k, _ :: cs => removeAllGo pat k cs
  | 0, c :: cs =>
      if pat.isPrefixOf (c :: cs) then removeAllGo pat (pat.length - 1) cs
      else c :: removeAllGo pat 0 cs

/-- One pass of Python `str.replace(pat, "")` for a nonempty pattern. -/
def removeAll (pat : PyStr) (s : PyStr) : PyStr := removeAllGo pat 0 s

/-- Python `text.replace(rc, "")` (replacing the empty pattern by the empty
    string leaves the text unchanged, as in Python). -/
def py_replace_del (text : PyStr) (rc : PyStr) : PyStr :=
  if rc.isEmpty then text else removeAll rc text

/-- `DoclingChunker.clean_chunk`: strip every repeated chunk, one
    `str.replace` pass per repeated chunk.  The source iterates over a Python
    `set`, whose order is unspecified; the model fixes first-occurrence order
    (supplied by `repeated_chunks`). -/
def clean_chunk (text : PyStr) (repeated_chunks : List PyStr) : PyStr :=
  repeated_chunks.foldl py_replace_del text

/-- Distinct elements of a list, keeping first occurrences (the key set of
    `Counter(chunks)`, whose iteration order is insertion order). -/
def dedupSeen (seen : List PyStr) : List PyStr → List PyStr
  | [] => []
  | c :: cs =>
      if seen.contains c then dedupSeen seen cs
      else c :: dedupSeen (c :: seen) cs

/-- Distinct elements in first-occurrence order. -/
def dedupKeepFirst (l : List PyStr) : List PyStr := dedupSeen [] l

/-- The set `{c for c, count in Counter(chunks).items() if count > 1}`. -/
def repeated_chunks (chunks : List PyStr) : List PyStr :=
  (dedupKeepFirst chunks).filter (fun c => decide (1 < chunks.count c))

/-- `DoclingChunker.filter_chunks`: the list comprehension
    `[clean_chunk(c, repeated) for c in chunks if counts[c] == 1 and is_good_chunk(c)]`. -/
def filter_chunks (chunks : List PyStr) : List PyStr :=
  (chunks.filter (fun c => chunks.count c == 1 && is_good_chunk c)).map
    (fun c => clean_chunk c (repeated_chunks chunks))

/-! ## `ContentModel.py` / shared constant tables

`SUPPORTED_MIME_TYPES`, `BINARY_EXTENSIONS` and `TEXT_EXTENSIONS` are
duplicated verbatim in `ContentModel.py`, `DoclingConverter.py` and
`docling_conversion.py`; they are modelled once. -/

/-- The `SUPPORTED_MIME_TYPES` dict, as an association list in source order. -/
def SUPPORTED_MIME_TYPES : List (String × String) :=
  [("application/pdf", ".pdf"),
   ("application/vnd.openxmlformats-officedocument.wordprocessingml.document", ".docx"),
   ("application/vnd.openxmlformats-officedocument.spreadsheetml.sheet", ".xlsx"),
   ("application/vnd.openxmlformats-officedocument.presentationml.presentation", ".pptx"),
   ("text/markdown", ".md"),
   ("text/asciidoc", ".txt"),
   ("text/plain", ".txt"),
   ("text/html", ".html"),
   ("application/xhtml+xml", ".xhtml"),
   ("text/xml", ".xml"),
   ("application/xml", ".xml"),
   ("text/csv", ".csv"),
   ("image/png", ".png"),
   ("image/jpeg", ".jpg"),
   ("image/tiff", ".tiff"),
   ("image/bmp", ".bmp"),
   ("message/rfc822", ".eml")]

/-- `BINARY_EXTENSIONS`. -/
def BINARY_EXTENSIONS : List String :=
  [".pdf", ".docx", ".xlsx", ".pptx", ".png", ".jpg", ".jpeg", ".tiff", ".tif", ".bmp"]

/-- `TEXT_EXTENSIONS`. -/
def TEXT_EXTENSIONS : List String :=
  [".md", ".markdown", ".html", ".htm", ".xhtml", ".csv", ".txt", ".xml"]

/-- Python `str.lower()` on a whole string (ASCII), modelled on the
    character data so that the kernel can evaluate it. -/
def py_lower_str (s : String) : String := ⟨s.data.map Char.toLower⟩

/-- `SUPPORTED_MIME_TYPES.get(content_type, ".bin")`. -/
def mimeExt (content_type : String) : String :=
  (SUPPORTED_MIME_TYPES.lookup content_type).getD ".bin"

/-- `is_supported_mime_type`: membership of the lowered type in the dict keys. -/
def is_supported_mime_type (content_type : String) : Bool :=
  (SUPPORTED_MIME_TYPES.lookup (py_lower_str content_type)).isSome

/-- The extension (with leading dot) of `os.path.splitext(name)[1]`: leading
    dots of the name are not separators; otherwise split at the last dot. -/
def lastDotSuffix : List Char → Option (List Char)
  | [] => none
  | '.' :: cs =>
      match lastDotSuffix cs with
      | some e => some e
      | none => some ('.' :: cs)
  | _ :: cs => lastDotSuffix cs

/-- `os.path.splitext(filename)[1]` for a plain (separator-free) filename. -/
def splitext_ext (filename : String) : String :=
  ((lastDotSuffix (filename.toList.dropWhile (fun c => c == '.'))).getD []).asString

/-- `is_supported_attachment` as defined in `DoclingConverter.py` and
    `docling_conversion.py` (the variant in `ContentModel.py` differs and is
    not exercised by any claim). -/
def is_supported_attachment : Option String → Bool
  | none => false
  | some filename =>
      let ext := py_lower_str (splitext_ext filename)
      BINARY_EXTENSIONS.contains ext || TEXT_EXTENSIONS.contains ext

/-! ## `docling_add_doc.py` — the document-tree merge

The docling node classes are modelled by a tag for each `isinstance` arm of
`_merge_node` plus an `other` tag for the fallback, and a flag recording
whether the Python object carries a `text` attribute (`hasattr(node, "text")`).
The target mutation through the `add_*` constructors is modelled
functionally: the node added under the parent, with the children the
recursion attaches beneath it. -/

/-- The node-kind dispatch of `_merge_node`: one tag per `isinstance` arm,
    `other` for anything not explicitly enumerated. -/
inductive SKind where
  | title | sectionHeader | listItem | code | formula
  | table | picture | keyValue | form | group | other
deriving DecidableEq, Repr

/-- A source-document node: its dispatch kind, whether the Python object has
    a `text` attribute, and its ordered children. -/
inductive SNode where
  | mk (kind : SKind) (hasText : Bool) (children : List SNode)

/-- A node created in the target document, recording which source kind
    produced it and the merged children attached beneath it. -/
inductive MNode where
  | mk (kind : SKind) (children : List MNode)

/-- Whether `_merge_node` creates a target node for a source node: every
    enumerated kind does; an unenumerated kind only if it has a `text`
    attribute (the `add_text` fallback). -/
def creates_node (kind : SKind) (hasText : Bool) : Bool :=
  match kind with
  | .other => hasText
  | _ => true

mutual

/-- `_merge_node`: create the corresponding target node (or skip), then merge
    the source node's children, in order, under the new node. -/
def merge_node : SNode → Option MNode
  | .mk kind hasText children =>
      if creates_node kind hasText then some (.mk kind (merge_children children))
      else none

/-- The recursive `for child_ref in source_node.children` loop: children that
    create nodes are attached in order, skipped children contribute nothing. -/
def merge_children : List SNode → List MNode
  | [] => []
  | c :: cs =>
      match merge_node c with
      | some m => m :: merge_children cs
      | none => merge_children cs

end

/-- `docling_add_doc`: append the merge of each top-level source body child
    under the target body, in order. -/
def docling_add_doc (target_body : List MNode) (source_body : List SNode) : List MNode :=
  target_body ++ merge_children source_body

/-! ## `DoclingService._process_email_multipart` — the multipart walk

A parsed `EmailMessage` is modelled as a tree: `leaf` for a non-multipart
part (with its content type, charset, filename, and decoded payload from
`get_payload(decode=True)`), `multi` for a multipart container (whose
decoded payload is `None`).  `EPart.walk` is `EmailMessage.walk()`:
preorder, the container itself first.  The per-part conversion
`DoclingService._process` and the merge `docling_add_doc` act on opaque
documents here and are supplied through the environment `MailEnv` — this
claim is about which parts are converted and in what order, not about the
conversions themselves. -/

/-- A parsed email message/part tree. -/
inductive EPart where
  | leaf (content_type : String) (charset : Option String)
      (filename : Option String) (payload : List Nat)
  | multi (content_type : String) (filename : Option String) (parts : List EPart)

/-- `part.get_content_type()`. -/
def EPart.get_content_type : EPart → String
  | .leaf ct _ _ _ => ct
  | .multi ct _ _ => ct

/-- `part.get_filename()`. -/
def EPart.get_filename : EPart → Option String
  | .leaf _ _ fn _ => fn
  | .multi _ fn _ => fn

/-- `part.get_content_charset()`. -/
def EPart.get_charset : EPart → Option String
  | .leaf _ cs _ _ => cs
  | .multi _ _ _ => none

/-- `part.get_payload(decode=True)`: `None` for a multipart container. -/
def EPart.get_payload_decoded : EPart → Option (List Nat)
  | .leaf _ _ _ p => some p
  | .multi _ _ _ => none

mutual

/-- `msg.walk()`: the part itself, then its subparts, depth-first in order. -/
def EPart.walk : EPart → List EPart
  | .leaf ct cs fn p => [.leaf ct cs fn p]
  | .multi ct fn parts => .multi ct fn parts :: EPart.walkList parts

/-- Walk a list of sibling parts in order. -/
def EPart.walkList : List EPart → List EPart
  | [] => []
  | p :: ps => p.walk ++ EPart.walkList ps

end

/-- The external collaborators of `_process_email_multipart`: document
    construction, the per-part conversion `DoclingService._process`
    (bytes, content type, filename, encoding), and `docling_add_doc`. -/
structure MailEnv (D : Type) where
  emptyDoc : String → D
  partProcess : List Nat → String → String → String → D
  docling_add : D → D → D

/-- `part.get_content_charset() or "utf-8"` (Python falsiness: `None` and the
    empty string both fall back). -/
def charset_or_utf8 (cs : Option String) : String :=
  match cs with
  | some c => if c == "" then "utf-8" else c
  | none => "utf-8"

/-- The filename used for a part: `part.get_filename()`, or, when that is
    `None` or empty, the synthesized
    `"attachment" + SUPPORTED_MIME_TYPES.get(content_type, ".bin")`. -/
def part_filename (part : EPart) : String :=
  match part.get_filename with
  | some f => if f == "" then "attachment" ++ mimeExt part.get_content_type else f
  | none => "attachment" ++ mimeExt part.get_content_type

/-- The loop body of `_process_email_multipart` over the walked parts. -/
def multipart_loop (env : MailEnv D) : List EPart → D → D
  | [], doc => doc
  | part :: rest, doc =>
      match part.get_payload_decoded with
      | none => multipart_loop env rest doc
      | some part_bytes =>
          if !is_supported_mime_type part.get_content_type || part_bytes.isEmpty then
            multipart_loop env rest doc
          else
            multipart_loop env rest
              (env.docling_add doc
                (env.partProcess part_bytes part.get_content_type (part_filename part)
                  (charset_or_utf8 part.get_charset)))

/-- `DoclingService._process_email_multipart`. -/
def process_email_multipart (env : MailEnv D) (msg : EPart) (filename : String) : D :=
  multipart_loop env msg.walk (env.emptyDoc ((msg.get_filename).getD filename))

/-- Eligibility of a walked part: a decoded payload exists (rules out
    multipart containers), its declared MIME type is in the supported table,
    and the payload is non-empty.  Filename presence and filename extension
    play no role. -/
def eligible_part (part : EPart) : Bool :=
  match part.get_payload_decoded with
  | some part_bytes => is_supported_mime_type part.get_content_type && !part_bytes.isEmpty
  | none => false

/-- The document a single eligible part contributes. -/
def part_doc (env : MailEnv D) (part : EPart) : D :=
  env.partProcess ((part.get_payload_decoded).getD []) part.get_content_type
    (part_filename part) (charset_or_utf8 part.get_charset)

/-! ## `ContentModel.py` — the persisted content record

Timestamps (`isoformat` strings in Python) are modelled as `Nat` ticks of a
logical clock; only their identity and presence matter to the claims. -/

/-- `ContentModel`: `docling_date` plays the spec's `document_derived_at`,
    `markdown_date` its `markdown_derived_at`, `chunk_date` its
    `chunks_derived_at`. -/
structure ContentModel where
  hash : String
  content_type : String
  filename : String
  size : Nat
  created_at : Nat
  docling_date : Option Nat := none
  markdown_date : Option Nat := none
  attachment_hashes : List String := []
  chunk_date : Option Nat := none
deriving DecidableEq, Repr

/-- `DoclingConversionResult` of `DoclingConverter.py` (no chunks field),
    parameterized by the opaque `DoclingDocument` type `D`. -/
inductive ConvResult (D : Type) where
  | mk (started_at : Nat) (seconds_taken : Nat) (content_type : String)
      (content_hash : String) (document : D) (filename : Option String)
      (attachments : Option (List (ConvResult D)))

/-- The `content_hash` field. -/
def ConvResult.contentHash : ConvResult D → String
  | .mk _ _ _ h _ _ _ => h

/-- `result.attachments = atts` (the mutation in `_convert_email`). -/
def ConvResult.with_attachments : ConvResult D → List (ConvResult D) → ConvResult D
  | .mk t s ct h d fn _, atts => .mk t s ct h d fn (some atts)

/-- `DoclingConversionResult` of `docling_conversion.py` (with
    `content_bytes` and `chunks`). -/
inductive ConvResult2 (D : Type) where
  | mk (started_at : Nat) (seconds_taken : Nat) (content_type : String)
      (content_hash : String) (content_bytes : List Nat) (document : D)
      (chunks : List PyStr) (filename : Option String)
      (attachments : Option (List (ConvResult2 D)))

/-- `result.attachments = atts` for the `docling_conversion.py` variant. -/
def ConvResult2.with_attachments : ConvResult2 D → List (ConvResult2 D) → ConvResult2 D
  | .mk t s ct h bs d cks fn _, atts => .mk t s ct h bs d cks fn (some atts)

/-! ## The blob store (`AzureContainer.py`) as explicit state

`store` is an association list from blob name to the stored value and its
creation time; a write shadows earlier entries (as `upload_blob` with
`overwrite=True` does).  A stored value keeps track of which JSON payload
was serialized into it; `corrupt` stands for stored bytes on which pydantic
validation raises.  The clock ticks at every `datetime.now()` call and at
every write. -/

/-- The possible deserializations of a stored blob. -/
inductive BlobVal (D : Type) where
  | record (m : ContentModel)
  | docling (d : D)
  | convres (r : ConvResult D)
  | text (s : String)
  | raw (bs : List Nat)
  | corrupt

/-- The world state: blob store, logical clock, and counters for the two
    expensive collaborator invocations (document conversion and markdown
    export) used to express "performs no derivation". -/
structure St (D : Type) where
  store : List (String × BlobVal D × Nat)
  clock : Nat
  convertCalls : Nat
  exportCalls : Nat

/-- The empty initial state. -/
def St.init : St D := ⟨[], 0, 0, 0⟩

/-- Raw lookup of a blob and its creation time. -/
def getPair (st : St D) (k : String) : Option (BlobVal D × Nat) := st.store.lookup k

/-- `AzureBlobContainer.get_blob_date`. -/
def get_blob_date (st : St D) (k : String) : Option Nat :=
  (getPair st k).map (fun p => p.2)

/-- `AzureBlobContainer.get_bytes`. -/
def get_bytes (st : St D) (k : String) : Option (BlobVal D) :=
  (getPair st k).map (fun p => p.1)

/-- `AzureBlobContainer.set_bytes` (upload with overwrite). -/
def set_bytes (st : St D) (k : String) (v : BlobVal D) : St D :=
  { st with store := (k, v, st.clock) :: st.store, clock := st.clock + 1 }

/-- `datetime.now(tz=timezone.utc)`. -/
def tick (st : St D) : Nat × St D := (st.clock, { st with clock := st.clock + 1 })

/-- Count one invocation of the docling `DocumentConverter` / parser. -/
def bump_convert (st : St D) : St D := { st with convertCalls := st.convertCalls + 1 }

/-- Count one invocation of `export_to_markdown`. -/
def bump_export (st : St D) : St D := { st with exportCalls := st.exportCalls + 1 }

/-- Blob name `{hash}/index.json`. -/
def index_key (h : String) : String := h ++ "/index.json"

/-- Blob name `{hash}/docling.json`. -/
def docling_key (h : String) : String := h ++ "/docling.json"

/-- Blob name `{hash}/original.md`. -/
def markdown_key (h : String) : String := h ++ "/original.md"

/-- Blob name `{hash}/original{ext}`. -/
def original_key (h ext : String) : String := h ++ "/original" ++ ext

/-! ## `DoclingService.py`

The claims about `get_docling` and `process` concern the staging, caching
and retry logic, not the content of the parsed documents, so
`DoclingService._process` (the dispatch to email decomposition, plain-text
wrapping, or the docling `DocumentConverter`) appears here as the opaque,
possibly-failing collaborator `process_doc`; its email branch is modelled
separately for claim C10. -/

/-- The collaborators of `ContentService`/`DoclingService`. -/
structure SvcEnv (D : Type) where
  blake3_hex : List Nat → String
  process_doc : List Nat → String → String → Except String D
  export_to_markdown : D → String

/-- `DoclingDocument.model_validate_json` on a stored blob. -/
def validate_docling : BlobVal D → Option D
  | .docling d => some d
  | _ => none

/-- The derivation branch of `get_docling`: run `_process` and persist the
    serialized document. -/
def derive_docling (env : SvcEnv D) (model : ContentModel) (original_bytes : List Nat)
    (st : St D) : Except String D × St D :=
  let st1 := bump_convert st
  match env.process_doc original_bytes model.content_type model.filename with
  | .error e => (.error e, st1)
  | .ok docling => (.ok docling, set_bytes st1 (docling_key model.hash) (.docling docling))

/-- `DoclingService.get_docling`, translated with the source's recursive
    retry (`return self.get_docling(model, original_bytes, True, attempt+1)`). -/
def get_docling_rec (env : SvcEnv D) (model : ContentModel) (original_bytes : List Nat)
    (overwrite : Bool) (attempt : Nat) (st : St D) : Except String D × St D :=
  if (get_blob_date st (docling_key model.hash)).isNone || overwrite then
    derive_docling env model original_bytes st
  else
    match get_bytes st (docling_key model.hash) with
    | none =>
        if attempt > 0 then (.error "Docling content not found", st)
        else get_docling_rec env model original_bytes true (attempt + 1) st
    | some v =>
        match validate_docling v with
        | some docling => (.ok docling, st)
        | none =>
            if attempt > 0 then (.error "docling validate", st)
            else get_docling_rec env model original_bytes true (attempt + 1) st
termination_by (if overwrite then 0 else 1)
decreasing_by all_goals simp_all

/-- `DoclingService.get_docling` with the single recursive retry unrolled:
    the retry call passes `overwrite = True`, which immediately selects the
    derivation branch, so it equals `derive_docling`
    (`get_docling_rec_eq` below proves the two definitions identical; this
    unrolled form is structurally recursive and thus kernel-evaluable). -/
def get_docling (env : SvcEnv D) (model : ContentModel) (original_bytes : List Nat)
    (overwrite : Bool) (attempt : Nat) (st : St D) : Except String D × St D :=
  if (get_blob_date st (docling_key model.hash)).isNone || overwrite then
    derive_docling env model original_bytes st
  else
    match get_bytes st (docling_key model.hash) with
    | none =>
        if attempt > 0 then (.error "Docling content not found", st)
        else derive_docling env model original_bytes st
    | some v =>
        match validate_docling v with
        | some docling => (.ok docling, st)
        | none =>
            if attempt > 0 then (.error "docling validate", st)
            else derive_docling env model original_bytes st

/-! ## `ContentService.py` -/

/-- `ContentService.save_status`. -/
def save_status (st : St D) (model : ContentModel) : St D :=
  set_bytes st (index_key model.hash) (.record model)

/-- `ContentService.get_status` (`model_validate_json` raises on a stored
    value that is not a serialized `ContentModel`). -/
def get_status (st : St D) (h : String) : Except String (Option ContentModel) :=
  match get_bytes st (index_key h) with
  | none => .ok none
  | some (.record m) => .ok (some m)
  | some _ => .error "index validate"

/-- `ContentService._process_original`. -/
def process_original (model : ContentModel) (original_bytes : List Nat) (overwrite : Bool)
    (st : St D) : ContentModel × St D :=
  let key := original_key model.hash (mimeExt model.content_type)
  let original_date := get_blob_date st key
  if original_date.isNone || overwrite then
    let st1 := set_bytes st key (.raw original_bytes)
    let p := tick st1
    let model1 := { model with created_at := p.1 }
    (model1, save_status p.2 model1)
  else
    ({ model with created_at := original_date.getD 0 }, st)

/-- `ContentService._check_markdown`.  In the read path the stored markdown
    is fetched and decoded but its value is unused by `process`, and no
    state changes. -/
def check_markdown (env : SvcEnv D) (model : ContentModel) (docling : D) (overwrite : Bool)
    (st : St D) : ContentModel × St D :=
  let key := markdown_key model.hash
  if (get_blob_date st key).isNone || overwrite then
    let st1 := bump_export st
    let md := env.export_to_markdown docling
    let st2 := set_bytes st1 key (.text md)
    let p := tick st2
    let model1 := { model with markdown_date := some p.1 }
    (model1, save_status p.2 model1)
  else
    (model, st)

/-- The record-resolution prefix of `ContentService.process`: look up the
    record for the hash; if absent or `overwrite`, build a fresh record and
    run `_process_original`.  Named separately from `process` purely to make
    the staged proofs compositional. -/
def resolve_record (env : SvcEnv D) (original_bytes : List Nat) (content_type filename : String)
    (overwrite : Bool) (st : St D) : Except String (ContentModel × St D) :=
  match get_status st (env.blake3_hex original_bytes) with
  | .error e => .error e
  | .ok r =>
      match r, overwrite with
      | some m, false => .ok (m, st)
      | _, _ =>
          let p := tick st
          .ok (process_original
            { hash := env.blake3_hex original_bytes, content_type := content_type,
              filename := filename, size := original_bytes.length, created_at := p.1 }
            original_bytes overwrite p.2)

/-- `ContentService.process`. -/
def process (env : SvcEnv D) (original_bytes : List Nat) (content_type filename : String)
    (overwrite : Bool) (st : St D) : Except String ContentModel × St D :=
  match resolve_record env original_bytes content_type filename overwrite st with
  | .error e => (.error e, st)
  | .ok (model, stA) =>
      match get_docling env model original_bytes overwrite 0 stA with
      | (.error e, st2) => (.error e, st2)
      | (.ok docling, st2) =>
          let fin :=
            if model.markdown_date.isNone then check_markdown env model docling overwrite st2
            else (model, st2)
          (.ok fin.1, fin.2)

/-! ## `DoclingConverter.py` and `docling_conversion.py` — the converters

The `EmailMessage` as consumed by `_convert_email` is modelled by `CMsg`:
the chosen body content (the HTML-preferred `get_body` outcome, already
encoded to bytes) and `iter_attachments()` as a list of `CPart`.  The
actual docling conversion, digests, email parsing and the `HybridChunker`
are opaque collaborators in `ConvEnv`. -/

/-- An attachment part as seen by `_convert_email_attachment`. -/
structure CPart where
  filename : Option String
  content_type : String
  payload : Option (List Nat)

/-- A parsed email as seen by `_convert_email`. -/
structure CMsg where
  content_type : String
  filename : Option String
  subject : Option String
  bodyBytes : List Nat
  attachments : List CPart

/-- The collaborators of the two `DoclingConverter` classes. -/
structure ConvEnv (D : Type) where
  blake3_hex : List Nat → String
  sha256_hex : List Nat → String
  doc_convert : List Nat → String → D
  parse_email : List Nat → CMsg
  chunk_doc : D → List PyStr

/-- `DoclingConverter._convert` (`DoclingConverter.py`): time the conversion,
    record the sha256 of the bytes, convert through the docling converter. -/
def conv_convert (env : ConvEnv D) (content_type : String) (content_bytes : List Nat)
    (filename : Option String) (st : St D) : ConvResult D × St D :=
  let p0 := tick st
  let h := env.sha256_hex content_bytes
  let st1 := bump_convert p0.2
  let d := env.doc_convert content_bytes (filename.getD content_type)
  let p1 := tick st1
  (.mk p0.1 (p1.1 - p0.1) content_type h d filename none, p1.2)

/-- `DoclingConverter._convert_email_attachment`: filename present and of a
    supported extension, supported MIME type, payload not `None` (empty
    payload bytes are converted, unlike in the multipart walk). -/
def convert_email_attachment (env : ConvEnv D) (part : CPart) (st : St D) :
    Option (ConvResult D) × St D :=
  match part.filename with
  | none => (none, st)
  | some f =>
      if f == "" then (none, st)
      else if !is_supported_attachment (some f) then (none, st)
      else if !is_supported_mime_type part.content_type then (none, st)
      else
        match part.payload with
        | none => (none, st)
        | some content =>
            let p := conv_convert env part.content_type content (some f) st
            (some p.1, p.2)

/-- `DoclingConverter._convert_email_body`: the body filename falls back to
    the Subject header, then to `"EmailMessage"` (only `None` triggers the
    fallback, not the empty string). -/
def convert_email_body (env : ConvEnv D) (msg : CMsg) (st : St D) : ConvResult D × St D :=
  let fn : Option String :=
    match msg.filename with
    | some f => some f
    | none => some (msg.subject.getD "EmailMessage")
  conv_convert env msg.content_type msg.bodyBytes fn st

/-- The `for part in email_message.iter_attachments()` loop of
    `_convert_email`. -/
def convert_atts (env : ConvEnv D) : List CPart → St D → List (ConvResult D) × St D
  | [], st => ([], st)
  | part :: rest, st =>
      match convert_email_attachment env part st with
      | (some r, st1) =>
          let p := convert_atts env rest st1
          (r :: p.1, p.2)
      | (none, st1) => convert_atts env rest st1

/-- `DoclingConverter._convert_email`. -/
def convert_email (env : ConvEnv D) (msg : CMsg) (st : St D) : ConvResult D × St D :=
  let body := convert_email_body env msg st
  let p := convert_atts env msg.attachments body.2
  (body.1.with_attachments p.1, p.2)

/-- `DoclingConverter.model_validate_json` of a stored blob as a
    `DoclingConversionResult`. -/
def validate_convres : BlobVal D → Option (ConvResult D)
  | .convres r => some r
  | _ => none

/-- `DoclingConverter.get_cached`: fetch `{hash}/docling.json`, validate it,
    raise on a content-hash mismatch — and in every non-raising case return
    `None`. -/
def get_cached (st : St D) (content_hash : String) : Except String (Option (ConvResult D)) :=
  match get_bytes st (docling_key content_hash) with
  | none => .ok none
  | some v =>
      match validate_convres v with
      | none => .error "convres validate"
      | some result =>
          if result.contentHash != content_hash then .error "Content hash mismatch"
          else .ok none

/-- `DoclingConverter.convert` (`DoclingConverter.py`): cache check first,
    then the supported-MIME check on the lowered type, then email or plain
    conversion, then persist the result under `{hash}/docling.json`. -/
def converter_convert (env : ConvEnv D) (content_type : String) (content : List Nat)
    (filename : Option String) (st : St D) : Except String (ConvResult D) × St D :=
  let content_hash := env.blake3_hex content
  match get_cached st content_hash with
  | .error e => (.error e, st)
  | .ok (some cached) => (.ok cached, st)
  | .ok none =>
      let ct := py_lower_str content_type
      if (SUPPORTED_MIME_TYPES.lookup ct).isNone then
        (.error ("Unsupported MIME type: " ++ ct), st)
      else
        let p : ConvResult D × St D :=
          if ct == "message/rfc822" then convert_email env (env.parse_email content) st
          else conv_convert env ct content filename st
        (.ok p.1, set_bytes p.2 (docling_key content_hash) (.convres p.1))

/-- `DoclingConverter._convert_and_chunk` (`docling_conversion.py`): convert,
    chunk through the `HybridChunker`, filter the chunk texts. -/
def convert_and_chunk (env : ConvEnv D) (content_type : String) (content_bytes : List Nat)
    (filename : Option String) (st : St D) : ConvResult2 D × St D :=
  let p0 := tick st
  let h := env.sha256_hex content_bytes
  let st1 := bump_convert p0.2
  let d := env.doc_convert content_bytes (filename.getD content_type)
  let chunks := filter_chunks (env.chunk_doc d)
  let p1 := tick st1
  (.mk p0.1 (p1.1 - p0.1) content_type h content_bytes d chunks filename none, p1.2)

/-- `_convert_email_attachment` of `docling_conversion.py`. -/
def convert_email_attachment2 (env : ConvEnv D) (part : CPart) (st : St D) :
    Option (ConvResult2 D) × St D :=
  match part.filename with
  | none => (none, st)
  | some f =>
      if f == "" then (none, st)
      else if !is_supported_attachment (some f) then (none, st)
      else if !is_supported_mime_type part.content_type then (none, st)
      else
        match part.payload with
        | none => (none, st)
        | some content =>
            let p := convert_and_chunk env part.content_type content (some f) st
            (some p.1, p.2)

/-- `_convert_email_body` of `docling_conversion.py`. -/
def convert_email_body2 (env : ConvEnv D) (msg : CMsg) (st : St D) : ConvResult2 D × St D :=
  let fn : Option String :=
    match msg.filename with
    | some f => some f
    | none => some (msg.subject.getD "EmailMessage")
  convert_and_chunk env msg.content_type msg.bodyBytes fn st

/-- The attachments loop of `_convert_email` (`docling_conversion.py`). -/
def convert_atts2 (env : ConvEnv D) : List CPart → St D → List (ConvResult2 D) × St D
  | [], st => ([], st)
  | part :: rest, st =>
      match convert_email_attachment2 env part st with
      | (some r, st1) =>
          let p := convert_atts2 env rest st1
          (r :: p.1, p.2)
      | (none, st1) => convert_atts2 env rest st1

/-- `_convert_email` of `docling_conversion.py`. -/
def convert_email2 (env : ConvEnv D) (msg : CMsg) (st : St D) : ConvResult2 D × St D :=
  let body := convert_email_body2 env msg st
  let p := convert_atts2 env msg.attachments body.2
  (body.1.with_attachments p.1, p.2)

/-- `DoclingConverter.convert` of `docling_conversion.py`: supported-MIME
    check first (this class touches no blob store at all), then email or
    plain convert-and-chunk. -/
def docling_conversion_convert (env : ConvEnv D) (content_type : String) (content : List Nat)
    (filename : Option String) (st : St D) : Except String (ConvResult2 D) × St D :=
  let ct := py_lower_str content_type
  if (SUPPORTED_MIME_TYPES.lookup ct).isNone then
    (.error ("Unsupported MIME type: " ++ ct), st)
  else if ct == "message/rfc822" then
    let p := convert_email2 env (env.parse_email content) st
    (.ok p.1, p.2)
  else
    let p := convert_and_chunk env ct content filename st
    (.ok p.1, p.2)

/-! ## Concrete collaborator instantiations used by the witnesses -/

/-- A trivial service environment over `D := Nat`: constant digest, constant
    parsed document, constant markdown. -/
def svcEnvW : SvcEnv Nat :=
  { blake3_hex := fun _ => "h", process_doc := fun _ _ _ => .ok 7,
    export_to_markdown := fun _ => "md" }

/-- A service environment whose parser always fails. -/
def svcEnvErr : SvcEnv Nat :=
  { blake3_hex := fun _ => "h", process_doc := fun _ _ _ => .error "boom",
    export_to_markdown := fun _ => "md" }

/-- A trivial converter environment over `D := Nat`. -/
def convEnvW : ConvEnv Nat :=
  { blake3_hex := fun _ => "h", sha256_hex := fun _ => "s",
    doc_convert := fun _ _ => 7,
    parse_email := fun _ =>
      { content_type := "text/plain", filename := none, subject := none,
        bodyBytes := [], attachments := [] },
    chunk_doc := fun _ => [] }

/-- A cached conversion result whose recorded `content_hash` matches the
    cache key `"h"` computed by `convEnvW.blake3_hex`. -/
def cachedResW : ConvResult Nat := .mk 0 0 "text/plain" "h" 7 none none

/-- A state holding that valid, hash-matching cached artifact under
    `h/docling.json`. -/
def stCacheW : St Nat :=
  { store := [(docling_key "h", .convres cachedResW, 0)], clock := 1,
    convertCalls := 0, exportCalls := 0 }

/-- A state holding a corrupt docling artifact under `h/docling.json`. -/
def stCorruptW : St Nat :=
  { store := [(docling_key "h", .corrupt, 0)], clock := 1,
    convertCalls := 0, exportCalls := 0 }

/-- The content record matching `stCorruptW`. -/
def modelW : ContentModel :=
  { hash := "h", content_type := "text/plain", filename := "f", size := 1, created_at := 0 }

/-- The state after the witness conversion below: the fresh result shadows
    the cached artifact, one conversion performed. -/
def stCacheW' : St Nat :=
  { store := [(docling_key "h", .convres (.mk 1 1 "text/plain" "s" 7 none none), 3),
              (docling_key "h", .convres cachedResW, 0)],
    clock := 4, convertCalls := 1, exportCalls := 0 }

/-- The record returned by the witness run of `process` below. -/
def mW1 : ContentModel :=
  { hash := "h", content_type := "text/plain", filename := "f", size := 1,
    created_at := 2, markdown_date := some 6 }

/-- The intermediate record persisted before the markdown stage. -/
def mW1pre : ContentModel :=
  { hash := "h", content_type := "text/plain", filename := "f", size := 1, created_at := 2 }

/-- The state after the witness run of `process` below. -/
def stW1 : St Nat :=
  { store := [(index_key "h", .record mW1, 7),
              (markdown_key "h", .text "md", 5),
              (docling_key "h", .docling 7, 4),
              (index_key "h", .record mW1pre, 3),
              (original_key "h" ".txt", .raw [0], 1)],
    clock := 8, convertCalls := 1, exportCalls := 1 }

/-- The record stored at `{h}/index.json`, if any, has `hash = h`. -/
def IndexKeyed (st : St D) (h : String) : Prop :=
  ∀ m : ContentModel, get_bytes st (index_key h) = some (.record m) → m.hash = h

/-- A valid serialized docling document sits at `{h}/docling.json`. -/
def dockOk (st : St D) (h : String) : Prop :=
  ∃ (d : D) (t : Nat), getPair st (docling_key h) = some (.docling d, t)

/-- The stable situation `process` leaves behind for hash `blake3(b)` and the
    record `m` it returned: the docling artifact is cached and valid, and
    either the index holds exactly `m` (whose unset markdown marker implies a
    present markdown blob), or the index was never written and `m` is the
    default record reconstructed from the stored original's date. -/
def Settled (env : SvcEnv D) (b : List Nat) (ct fn : String) (m : ContentModel) (st : St D) : Prop :=
  dockOk st (env.blake3_hex b) ∧
  ((get_bytes st (index_key (env.blake3_hex b)) = some (.record m) ∧
    m.hash = env.blake3_hex b ∧
    (m.markdown_date = none →
      (get_blob_date st (markdown_key (env.blake3_hex b))).isSome = true))
   ∨
   (get_bytes st (index_key (env.blake3_hex b)) = none ∧
    get_blob_date st (original_key (env.blake3_hex b) (mimeExt ct)) = some m.created_at ∧
    (get_blob_date st (markdown_key (env.blake3_hex b))).isSome = true ∧
    m = { hash := env.blake3_hex b, content_type := ct, filename := fn, size := b.length,
          created_at := m.created_at }))

/-! ## Theorems -/

/-! ## Theorems about the chunk filter (claims C4, C5, C6) -/

/-- C4.  The output of `filter_chunks` is obtained from exactly the chunks
    occurring once and passing the goodness predicate — every occurrence of a
    repeated chunk is dropped, none is kept — in their original relative
    order (`Sublist`), each surviving chunk mapped through `clean_chunk`.
    (The claim's "excluded entirely" is read of the input occurrences; the
    stripping map may in corner cases re-create a repeated string as an
    output element, which is claim C5's subject.) -/
theorem filter_chunks_removes_repeats_preserves_order (chunks : List PyStr) :
    ∃ survivors : List PyStr,
      survivors.Sublist chunks ∧
      (∀ c, c ∈ survivors ↔ (c ∈ chunks ∧ chunks.count c = 1 ∧ is_good_chunk c = true)) ∧
      filter_chunks chunks =
        survivors.map (fun c => clean_chunk c (repeated_chunks chunks)) := by
  refine ⟨chunks.filter (fun c => chunks.count c == 1 && is_good_chunk c),
    List.filter_sublist _, ?_, rfl⟩
  intro c
  simp [List.mem_filter]

/-- C5 counterexample.  With input chunks `["ab", "ab", "aabb"]` the chunk
    `"aabb"` is unique and the repeated set is `{"ab"}`, yet the stripped
    text `clean_chunk "aabb" {"ab"}` equals `"ab"`, which still contains the
    repeated string `"ab"`: one-pass `str.replace` can re-create an
    occurrence by juxtaposition, so the stripped text is not free of
    repeated-chunk occurrences. -/
theorem clean_chunk_counterexample :
    [pystr "ab", pystr "ab", pystr "aabb"].count (pystr "aabb") = 1 ∧
    repeated_chunks [pystr "ab", pystr "ab", pystr "aabb"] = [pystr "ab"] ∧
    clean_chunk (pystr "aabb") [pystr "ab"] = pystr "ab" ∧
    py_in (pystr "ab") (clean_chunk (pystr "aabb") [pystr "ab"]) = true :=
  ⟨rfl, rfl, rfl, rfl⟩

theorem removeAllGo_eq_of_not_in (pat : PyStr) :
    ∀ s : PyStr, py_in pat s = false → removeAllGo pat 0 s = s := by
  intro s
  induction s with
  | nil => intro _; rfl
  | cons c cs ih =>
      intro h
      have h' : pat.isPrefixOf (c :: cs) = false ∧ py_in pat cs = false := by
        have : (pat.isPrefixOf (c :: cs) || py_in pat cs) = false := h
        constructor
        · exact Bool.or_eq_false_iff.mp this |>.1
        · exact Bool.or_eq_false_iff.mp this |>.2
      simp [removeAllGo, h'.1, ih h'.2]

theorem removeAllGo_skip (pat : PyStr) :
    ∀ (pre s : PyStr), removeAllGo pat pre.length (pre ++ s) = removeAllGo pat 0 s := by
  intro pre
  induction pre with
  | nil => intro s; rfl
  | cons p ps ih => intro s; simpa [removeAllGo] using ih s

/-- C5 amended.  `clean_chunk` strips each repeated string by a single
    left-to-right `str.replace` pass: an occurrence at the scan position is
    always consumed (second conjunct), and a chunk containing no repeated
    string at all is returned unchanged (first conjunct); but, as the
    counterexample shows, removal can juxtapose fragments into a fresh
    occurrence, so the final text need not be free of repeated strings. -/
theorem clean_chunk_one_pass (text : PyStr) (rcs : List PyStr) (pat rest : PyStr)
    (habsent : ∀ rc ∈ rcs, py_in rc text = false) (hpat : pat ≠ []) :
    clean_chunk text rcs = text ∧
    removeAll pat (pat ++ rest) = removeAll pat rest := by
  constructor
  · induction rcs with
    | nil => rfl
    | cons rc rcs ih =>
        have hstep : py_replace_del text rc = text := by
          unfold py_replace_del
          by_cases hrc : rc.isEmpty
          · simp [hrc]
          · simp only [hrc, if_false, Bool.false_eq_true]
            exact removeAllGo_eq_of_not_in rc text (habsent rc (by simp))
        show List.foldl py_replace_del text (rc :: rcs) = text
        rw [List.foldl_cons, hstep]
        exact ih (fun r hr => habsent r (by simp [hr]))
  · obtain ⟨p, pt, rfl⟩ : ∃ p pt, pat = p :: pt := by
      cases pat with
      | nil => exact absurd rfl hpat
      | cons p pt => exact ⟨p, pt, rfl⟩
    show removeAllGo (p :: pt) 0 ((p :: pt) ++ rest) = removeAllGo (p :: pt) 0 rest
    have hpre : (p :: pt).isPrefixOf ((p :: pt) ++ rest) = true := by
      simp [List.isPrefixOf_iff_prefix]
    calc removeAllGo (p :: pt) 0 ((p :: pt) ++ rest)
        = removeAllGo (p :: pt) ((p :: pt).length - 1) (pt ++ rest) := by
          simp [removeAllGo, hpre]
      _ = removeAllGo (p :: pt) 0 rest := by
          simpa using removeAllGo_skip (p :: pt) pt rest

/-- C6 counterexample.  In `["phone", "phone", "A phone B"]` the unique chunk
    `"A phone B"` has its stripped text `"A  B"` pass the goodness predicate,
    yet `filter_chunks` rejects it: the predicate is applied to the raw chunk
    (which matches `\bphone\b`) before stripping, so a boilerplate hit living
    only inside the removed repeated substring still rejects the chunk. -/
theorem goodness_after_strip_counterexample :
    [pystr "phone", pystr "phone", pystr "A phone B"].count (pystr "A phone B") = 1 ∧
    is_good_chunk (clean_chunk (pystr "A phone B")
      (repeated_chunks [pystr "phone", pystr "phone", pystr "A phone B"])) = true ∧
    filter_chunks [pystr "phone", pystr "phone", pystr "A phone B"] = [] :=
  ⟨rfl, rfl, rfl⟩

/-- C6 amended.  The goodness predicate is applied to the chunk text
    *before* stripping: a unique chunk is kept (its stripped text appears in
    the output) iff its raw text passes `is_good_chunk`; the number of output
    elements is that of the chunks satisfying the raw-text predicate, so a
    unique chunk whose raw text fails the predicate contributes nothing even
    when its stripped text would pass. -/
theorem goodness_applied_pre_strip (chunks : List PyStr) (c : PyStr)
    (hmem : c ∈ chunks) (hcount : chunks.count c = 1) (hgood : is_good_chunk c = true) :
    clean_chunk c (repeated_chunks chunks) ∈ filter_chunks chunks ∧
    (filter_chunks chunks).length =
      (chunks.filter (fun d => chunks.count d == 1 && is_good_chunk d)).length := by
  constructor
  · exact List.mem_map_of_mem _ (List.mem_filter.mpr (by simp [hmem, hcount, hgood]))
  · simp [filter_chunks]

/-- Witness for `clean_chunk_one_pass` at concrete inputs. -/
theorem clean_chunk_one_pass_witness :
    clean_chunk (pystr "Report body") [pystr "CONFIDENTIAL"] = pystr "Report body" ∧
    removeAll (pystr "ab") (pystr "ab" ++ pystr "xy") = removeAll (pystr "ab") (pystr "xy") :=
  clean_chunk_one_pass (pystr "Report body") [pystr "CONFIDENTIAL"] (pystr "ab") (pystr "xy")
    (by intro rc hrc; simp at hrc; subst hrc; rfl) (by decide)

/-! ## Theorems about the tree merge and the multipart walk (claims C9, C10) -/

/-- C9.  A source node of unenumerated kind with no text payload creates no
    target node — and because `merge_node` returns `none` for it, none of its
    descendants are merged (the whole subtree is dropped); every source node
    that does create a target node gets exactly the merges of its children,
    in their original order, attached beneath the new node; and the merged
    children of any list are the in-order collection of the created nodes. -/
theorem merge_node_skip_and_order (kind : SKind) (hasText : Bool) (children : List SNode) :
    (creates_node kind hasText = false → merge_node (.mk kind hasText children) = none) ∧
    (creates_node kind hasText = true →
      merge_node (.mk kind hasText children) = some (.mk kind (merge_children children))) ∧
    merge_children children = children.filterMap merge_node ∧
    (creates_node kind hasText = false ↔ kind = .other ∧ hasText = false) := by
  refine ⟨fun h => by simp [merge_node, h], fun h => by simp [merge_node, h], ?_, ?_⟩
  · induction children with
    | nil => rfl
    | cons c cs ih =>
        show (match merge_node c with
              | some m => m :: merge_children cs
              | none => merge_children cs) = List.filterMap merge_node (c :: cs)
        cases hm : merge_node c <;> simp [List.filterMap_cons, hm, ih]
  · cases kind <;> cases hasText <;> simp [creates_node]

/-- Witness for `merge_node_skip_and_order` at a concrete skipped node with a
    child (the subtree is dropped) and at a created group node. -/
theorem merge_node_skip_and_order_witness :
    (creates_node .other false = false →
      merge_node (.mk .other false [.mk .title true []]) = none) ∧
    (creates_node .other false = true →
      merge_node (.mk .other false [.mk .title true []]) =
        some (.mk .other (merge_children [.mk .title true []]))) ∧
    merge_children [.mk .title true []] = [.mk .title true []].filterMap merge_node ∧
    (creates_node .other false = false ↔ SKind.other = .other ∧ false = false) :=
  merge_node_skip_and_order .other false [.mk .title true []]

theorem multipart_loop_filter (env : MailEnv D) :
    ∀ (parts : List EPart) (doc : D),
      multipart_loop env parts doc =
        (parts.filter eligible_part).foldl (fun d p => env.docling_add d (part_doc env p)) doc := by
  intro parts
  induction parts with
  | nil => intro doc; rfl
  | cons part rest ih =>
      intro doc
      cases hp : part.get_payload_decoded with
      | none =>
          have he : eligible_part part = false := by simp [eligible_part, hp]
          simp [multipart_loop, hp, he, ih]
      | some part_bytes =>
          cases hsup : is_supported_mime_type part.get_content_type with
          | false =>
              have he : eligible_part part = false := by simp [eligible_part, hp, hsup]
              simp [multipart_loop, hp, hsup, he, ih]
          | true =>
              cases hemp : part_bytes.isEmpty with
              | true =>
                  have he : eligible_part part = false := by
                    simp [eligible_part, hp, hsup, hemp]
                  simp [multipart_loop, hp, hsup, hemp, he, ih]
              | false =>
                  have he : eligible_part part = true := by
                    simp [eligible_part, hp, hsup, hemp]
                  have hpd : part_doc env part =
                      env.partProcess part_bytes part.get_content_type (part_filename part)
                        (charset_or_utf8 part.get_charset) := by
                    simp [part_doc, hp]
                  simp [multipart_loop, hp, hsup, hemp, he, ih, hpd]

/-- C10.  `_process_email_multipart` converts exactly the walked parts that
    have a decoded payload, a supported MIME type and non-empty bytes —
    independently, in `msg.walk()` order — and folds each converted document
    into the accumulating result with `docling_add_doc`.  The eligibility
    predicate mentions neither filenames nor extensions, and no HTML-vs-plain
    body selection occurs; a part without a filename participates with the
    synthesized `"attachment" + ext` name (inside `part_filename`). -/
theorem process_email_multipart_spec (env : MailEnv D) (msg : EPart) (filename : String) :
    process_email_multipart env msg filename =
      ((msg.walk).filter eligible_part).foldl
        (fun d p => env.docling_add d (part_doc env p))
        (env.emptyDoc ((msg.get_filename).getD filename)) :=
  multipart_loop_filter env msg.walk (env.emptyDoc ((msg.get_filename).getD filename))

/-! ## The recursive and unrolled `get_docling` agree -/

theorem get_docling_rec_eq (env : SvcEnv D) (model : ContentModel) (original_bytes : List Nat)
    (overwrite : Bool) (attempt : Nat) (st : St D) :
    get_docling_rec env model original_bytes overwrite attempt st =
      get_docling env model original_bytes overwrite attempt st := by
  have hretry : get_docling_rec env model original_bytes true (attempt + 1) st =
      derive_docling env model original_bytes st := by
    rw [get_docling_rec]
    simp
  rw [get_docling_rec]
  unfold get_docling
  cases h : ((get_blob_date st (docling_key model.hash)).isNone || overwrite) with
  | true => simp [h]
  | false =>
      simp only [h, Bool.false_eq_true, if_false]
      cases hv : get_bytes st (docling_key model.hash) with
      | none => simp [hretry]
      | some v =>
          cases hvd : validate_docling v with
          | none => simp [hvd, hretry]
          | some docling => simp [hvd]

/-! ## Store and key lemmas -/

theorem getPair_set_self (st : St D) (k : String) (v : BlobVal D) :
    getPair (set_bytes st k v) k = some (v, st.clock) := by
  simp [getPair, set_bytes, List.lookup]

theorem getPair_set_other (st : St D) (k k' : String) (v : BlobVal D) (h : (k' == k) = false) :
    getPair (set_bytes st k v) k' = getPair st k' := by
  simp only [getPair, set_bytes, List.lookup, h]

theorem getPair_init (k : String) : getPair (St.init : St D) k = none := rfl

/-- Right-cancellation of `String.append` for key disjointness. -/
theorem string_append_ne (h : String) {s t : String} (hne : s ≠ t) : h ++ s ≠ h ++ t := by
  intro he
  apply hne
  apply String.ext
  apply @List.append_cancel_left _ h.data
  have hd := congrArg String.data he
  simpa [String.data_append] using hd

theorem orig_suffix_ne_index (ext : String) : "/original" ++ ext ≠ "/index.json" := by
  intro h
  have hd := congrArg String.data h
  rw [String.data_append] at hd
  simp [show "/original".data = ['/', 'o', 'r', 'i', 'g', 'i', 'n', 'a', 'l'] from rfl] at hd

theorem orig_suffix_ne_docling (ext : String) : "/original" ++ ext ≠ "/docling.json" := by
  intro h
  have hd := congrArg String.data h
  rw [String.data_append] at hd
  simp [show "/original".data = ['/', 'o', 'r', 'i', 'g', 'i', 'n', 'a', 'l'] from rfl] at hd

theorem orig_suffix_eq_markdown_iff (ext : String) :
    ("/original" ++ ext = "/original.md") ↔ ext = ".md" := by
  constructor
  · intro h
    have hd := congrArg String.data h
    rw [String.data_append] at hd
    apply String.ext
    have h2 : "/original".data ++ ext.data = "/original".data ++ ".md".data := by
      simpa using hd
    have := @List.append_cancel_left _ ("/original".data) _ _ h2
    simpa using this
  · intro h
    subst h
    rfl

theorem original_key_assoc (h ext : String) : original_key h ext = h ++ ("/original" ++ ext) := by
  simp [original_key, String.append_assoc]

theorem original_key_ne_index (h ext : String) : original_key h ext ≠ index_key h := by
  rw [original_key_assoc]
  exact string_append_ne h (orig_suffix_ne_index ext)

theorem original_key_ne_docling (h ext : String) : original_key h ext ≠ docling_key h := by
  rw [original_key_assoc]
  exact string_append_ne h (orig_suffix_ne_docling ext)

theorem original_key_eq_markdown_iff (h ext : String) :
    (original_key h ext = markdown_key h) ↔ ext = ".md" := by
  rw [original_key_assoc]
  constructor
  · intro he
    exact (orig_suffix_eq_markdown_iff ext).mp (by
      by_contra hne
      exact string_append_ne h hne he)
  · intro he
    subst he
    rfl

theorem index_key_ne_docling (h : String) : index_key h ≠ docling_key h :=
  string_append_ne h (by decide)

theorem index_key_ne_markdown (h : String) : index_key h ≠ markdown_key h :=
  string_append_ne h (by decide)

theorem docling_key_ne_markdown (h : String) : docling_key h ≠ markdown_key h :=
  string_append_ne h (by decide)

/-- Convert key inequality to the `==` form that `List.lookup` branches on. -/
theorem key_beq_false_of_ne {k k' : String} (h : k ≠ k') : (k == k') = false := by
  simp [h]

/-! ## Theorems about the converters (claims C3 and C8) -/

theorem get_cached_ok_none (st : St D) (h : String) (r : Option (ConvResult D))
    (hk : get_cached st h = .ok r) : r = none := by
  unfold get_cached at hk
  split at hk
  · exact (Except.ok.inj hk).symm
  · split at hk
    · cases hk
    · split at hk
      · cases hk
      · exact (Except.ok.inj hk).symm

theorem conv_convert_calls (env : ConvEnv D) (ct : String) (bs : List Nat)
    (fn : Option String) (st : St D) :
    ((conv_convert env ct bs fn st).2).convertCalls = st.convertCalls + 1 := rfl

theorem convert_email_attachment_calls (env : ConvEnv D) (part : CPart) (st : St D) :
    st.convertCalls ≤ ((convert_email_attachment env part st).2).convertCalls := by
  unfold convert_email_attachment
  split
  · exact Nat.le_refl _
  · split
    · exact Nat.le_refl _
    · split
      · exact Nat.le_refl _
      · split
        · exact Nat.le_refl _
        · split
          · exact Nat.le_refl _
          · simp only [conv_convert_calls]
            omega

theorem convert_atts_calls (env : ConvEnv D) :
    ∀ (parts : List CPart) (st : St D),
      st.convertCalls ≤ ((convert_atts env parts st).2).convertCalls := by
  intro parts
  induction parts with
  | nil => intro st; exact Nat.le_refl _
  | cons part rest ih =>
      intro st
      have hle := convert_email_attachment_calls env part st
      unfold convert_atts
      rcases hc : convert_email_attachment env part st with ⟨r, st1⟩
      rw [hc] at hle
      cases r with
      | some v =>
          simp only
          exact Nat.le_trans hle (ih st1)
      | none =>
          simp only
          exact Nat.le_trans hle (ih st1)

theorem convert_email_calls (env : ConvEnv D) (msg : CMsg) (st : St D) :
    st.convertCalls < ((convert_email env msg st).2).convertCalls := by
  show st.convertCalls <
    ((convert_atts env msg.attachments (convert_email_body env msg st).2).2).convertCalls
  have h2 := convert_atts_calls env msg.attachments (convert_email_body env msg st).2
  have h1 : ((convert_email_body env msg st).2).convertCalls = st.convertCalls + 1 :=
    conv_convert_calls env msg.content_type msg.bodyBytes _ st
  omega

theorem converter_convert_calls (env : ConvEnv D) (content_type : String) (content : List Nat)
    (filename : Option String) (st₀ st₁ : St D) (res : ConvResult D)
    (hconv : converter_convert env content_type content filename st₀ = (.ok res, st₁)) :
    st₀.convertCalls < st₁.convertCalls := by
  simp only [converter_convert] at hconv
  split at hconv
  · simp at hconv
  · next cached heq =>
      have := get_cached_ok_none _ _ _ heq
      cases this
  · split at hconv
    · simp at hconv
    · by_cases hem : (py_lower_str content_type == "message/rfc822") = true
      · simp only [hem, if_true] at hconv
        have hst := (Prod.mk.injEq _ _ _ _).mp hconv |>.2
        have := convert_email_calls env (env.parse_email content) st₀
        rw [← hst] at *
        simpa [set_bytes] using this
      · simp only [hem] at hconv
        simp only [Bool.false_eq_true, if_false] at hconv
        have hst := (Prod.mk.injEq _ _ _ _).mp hconv |>.2
        have := conv_convert_calls env (py_lower_str content_type) content filename st₀
        rw [← hst]
        simp only [set_bytes]
        omega

/-- C3.  `get_cached` never returns a cached result: whenever it returns at
    all (the stored artifact is absent, or deserializes with a matching
    `content_hash` — on a mismatch or a validation failure it raises
    instead), the returned value is `None`; consequently every successful
    `DoclingConverter.convert` call performs a fresh conversion (the
    document-converter invocation count strictly increases). -/
theorem get_cached_never_short_circuits (st : St D) (h : String) (r : Option (ConvResult D))
    (env : ConvEnv D) (content_type : String) (content : List Nat) (filename : Option String)
    (st₀ st₁ : St D) (res : ConvResult D)
    (hcache : get_cached st h = .ok r)
    (hconv : converter_convert env content_type content filename st₀ = (.ok res, st₁)) :
    r = none ∧ st₀.convertCalls < st₁.convertCalls :=
  ⟨get_cached_ok_none st h r hcache,
   converter_convert_calls env content_type content filename st₀ st₁ res hconv⟩

/-- Witness for `get_cached_never_short_circuits`: the cache holds a valid
    artifact whose recorded hash matches the key, yet the lookup yields
    `None` and `convert` still performs a fresh conversion. -/
theorem get_cached_never_short_circuits_witness :
    (none : Option (ConvResult Nat)) = none ∧
    stCacheW.convertCalls < stCacheW'.convertCalls :=
  get_cached_never_short_circuits stCacheW "h" none convEnvW "text/plain" [0] none
    stCacheW stCacheW' (.mk 1 1 "text/plain" "s" 7 none none)
    (by rfl) (by rfl)

/-- C8 amended.  Both converter entry points reject a content type whose
    lowering is absent from `SUPPORTED_MIME_TYPES` before doing any work:
    `DoclingConverter.convert` (`DoclingConverter.py`) returns a failure with
    the state unchanged (in particular no store write and no conversion), and
    the storeless `docling_conversion.py` variant fails with exactly the
    unsupported-MIME `ValueError`.  `ContentService.process`, by contrast,
    performs no MIME validation at all (see the counterexample). -/
theorem convert_unsupported_mime_rejected (env : ConvEnv D) (content_type : String)
    (content : List Nat) (filename : Option String) (st : St D)
    (hun : SUPPORTED_MIME_TYPES.lookup (py_lower_str content_type) = none) :
    ((converter_convert env content_type content filename st).1.isOk = false ∧
     (converter_convert env content_type content filename st).2 = st) ∧
    docling_conversion_convert env content_type content filename st =
      (.error ("Unsupported MIME type: " ++ py_lower_str content_type), st) := by
  constructor
  · unfold converter_convert
    cases hc : get_cached st (env.blake3_hex content) with
    | error e => simp [hc, Except.isOk, Except.toBool]
    | ok r =>
        have hr := get_cached_ok_none _ _ _ hc
        subst hr
        simp [hc, hun, Except.isOk, Except.toBool]
  · unfold docling_conversion_convert
    simp [hun]

/-- Witness for `convert_unsupported_mime_rejected` at the concrete
    unsupported type `application/zip`. -/
theorem convert_unsupported_mime_rejected_witness :
    (((converter_convert convEnvW "application/zip" [0] none St.init).1.isOk = false ∧
      (converter_convert convEnvW "application/zip" [0] none St.init).2 = St.init) ∧
     docling_conversion_convert convEnvW "application/zip" [0] none St.init =
       (.error ("Unsupported MIME type: " ++ py_lower_str "application/zip"), St.init)) :=
  convert_unsupported_mime_rejected convEnvW "application/zip" [0] none St.init (by decide)

/-- C8 counterexample.  `ContentService.process` does not validate the MIME
    type: called with `application/zip` (absent from the table) on an empty
    store it succeeds, stores the original under the `.bin` default
    extension, runs the conversion, and returns a record — five blobs
    written, one conversion and one markdown export performed. -/
theorem process_unsupported_mime_counterexample :
    SUPPORTED_MIME_TYPES.lookup "application/zip" = none ∧
    (process svcEnvW [0] "application/zip" "f" false St.init).1 =
      .ok { hash := "h", content_type := "application/zip", filename := "f", size := 1,
            created_at := 2, markdown_date := some 6 } ∧
    (process svcEnvW [0] "application/zip" "f" false St.init).2.store.length = 5 ∧
    (process svcEnvW [0] "application/zip" "f" false St.init).2.convertCalls = 1 ∧
    (process svcEnvW [0] "application/zip" "f" false St.init).2.exportCalls = 1 :=
  ⟨rfl, rfl, rfl, rfl, rfl⟩

/-! ## Theorems about `get_docling` (claim C7) -/

theorem derive_docling_calls (env : SvcEnv D) (model : ContentModel) (b : List Nat) (st : St D) :
    ((derive_docling env model b st).2).convertCalls = st.convertCalls + 1 := by
  unfold derive_docling
  split <;> rfl

/-- C7.  On a corrupt cached structured document (present but failing
    validation) with `overwrite = False`, `get_docling` performs exactly one
    automatic retry that forces fresh derivation (`derive_docling`, which
    ignores the cache); if the parser fails on that retry the error is
    raised to the caller with no further attempt; and no `get_docling` call
    ever performs more than one derivation, hence never more than two
    total attempts (initial cache read + one forced derivation). -/
theorem get_docling_single_retry (env : SvcEnv D) (model : ContentModel) (b : List Nat)
    (st : St D) (t : Nat)
    (hcor : getPair st (docling_key model.hash) = some (.corrupt, t)) :
    get_docling env model b false 0 st = derive_docling env model b st ∧
    (∀ e, env.process_doc b model.content_type model.filename = .error e →
        get_docling env model b false 0 st = (.error e, bump_convert st)) ∧
    (∀ (ow : Bool) (a : Nat),
        ((get_docling env model b ow a st).2).convertCalls ≤ st.convertCalls + 1) := by
  have hdate : get_blob_date st (docling_key model.hash) = some t := by
    simp [get_blob_date, hcor]
  have hbytes : get_bytes st (docling_key model.hash) = some .corrupt := by
    simp [get_bytes, hcor]
  have h1 : get_docling env model b false 0 st = derive_docling env model b st := by
    unfold get_docling
    simp [hdate, hbytes, validate_docling]
  refine ⟨h1, ?_, ?_⟩
  · intro e he
    rw [h1]
    unfold derive_docling
    simp [he, bump_convert]
  · intro ow a
    unfold get_docling
    split
    · simp [derive_docling_calls]
    · rw [hbytes]
      simp only [validate_docling]
      split
      · simp
      · simp [derive_docling_calls]

/-- Witness for `get_docling_single_retry`: a concrete corrupt cache entry,
    with a parser that fails on the forced retry, making the failure fatal. -/
theorem get_docling_single_retry_witness :
    (get_docling svcEnvErr modelW [0] false 0 stCorruptW =
      derive_docling svcEnvErr modelW [0] stCorruptW) ∧
    (∀ e, svcEnvErr.process_doc [0] modelW.content_type modelW.filename = .error e →
        get_docling svcEnvErr modelW [0] false 0 stCorruptW = (.error e, bump_convert stCorruptW)) ∧
    (∀ (ow : Bool) (a : Nat),
        ((get_docling svcEnvErr modelW [0] ow a stCorruptW).2).convertCalls ≤
          stCorruptW.convertCalls + 1) :=
  get_docling_single_retry svcEnvErr modelW [0] stCorruptW 0 rfl

/-! ## Theorems about `ContentService.process` (claims C1 and C2) -/

/-- C1 counterexample.  A successful fresh `process` call (trivial
    collaborators, empty store) returns a record whose `docling_date`
    (`document_derived_at`) and `chunk_date` (`chunks_derived_at`) are both
    null — `process` never stamps them (there is no chunk stage at all), so
    the claim that all three stage markers are non-null on return fails. -/
theorem process_stamps_counterexample :
    (process svcEnvW [0] "text/plain" "f" false St.init).1 =
      .ok { hash := "h", content_type := "text/plain", filename := "f", size := 1,
            created_at := 2, docling_date := none, markdown_date := some 6,
            attachment_hashes := [], chunk_date := none } := rfl

/-- C1 amended.  On a fresh input (empty store), a successful `process` call
    ensures the structured-document stage in the artifact sense — the
    serialized docling document is persisted under `{hash}/docling.json` —
    and stamps `markdown_date` unless the original was stored under the
    `.md` extension (where `{hash}/original.md` collides with the markdown
    artifact key and masks the export when `overwrite` is false); but
    `docling_date` and `chunk_date` are never stamped: no code path writes
    them and `ContentService` has no chunk stage. -/
theorem process_stage_marks (env : SvcEnv D) (b : List Nat) (ct fn : String) (ow : Bool)
    (m : ContentModel) (st' : St D)
    (hrun : process env b ct fn ow St.init = (.ok m, st')) :
    m.docling_date = none ∧ m.chunk_date = none ∧
    m.markdown_date.isSome = (ow || !(mimeExt ct == ".md")) ∧
    ∃ d t, getPair st' (docling_key (env.blake3_hex b)) = some (.docling d, t) := by
  have bdi : (docling_key (env.blake3_hex b) == index_key (env.blake3_hex b)) = false :=
    key_beq_false_of_ne (Ne.symm (index_key_ne_docling _))
  have bdo : (docling_key (env.blake3_hex b) == original_key (env.blake3_hex b) (mimeExt ct)) = false :=
    key_beq_false_of_ne (Ne.symm (original_key_ne_docling _ _))
  have bmd : (markdown_key (env.blake3_hex b) == docling_key (env.blake3_hex b)) = false :=
    key_beq_false_of_ne (Ne.symm (docling_key_ne_markdown _))
  have bmi : (markdown_key (env.blake3_hex b) == index_key (env.blake3_hex b)) = false :=
    key_beq_false_of_ne (Ne.symm (index_key_ne_markdown _))
  have bdm : (docling_key (env.blake3_hex b) == markdown_key (env.blake3_hex b)) = false :=
    key_beq_false_of_ne (docling_key_ne_markdown _)
  rcases hpd : env.process_doc b ct fn with e | d
  · simp [process, resolve_record, get_status, getPair, List.lookup, get_bytes, get_blob_date, process_original,
      tick, set_bytes, save_status, St.init, get_docling, derive_docling, bump_convert, hpd,
      bdi, bdo] at hrun
  · by_cases hmd : mimeExt ct = ".md"
    · have borg : (markdown_key (env.blake3_hex b) ==
          original_key (env.blake3_hex b) (mimeExt ct)) = true := by
        rw [hmd]
        have he : original_key (env.blake3_hex b) ".md" = markdown_key (env.blake3_hex b) :=
          (original_key_eq_markdown_iff _ _).mpr rfl
        simp [he]
      cases ow with
      | false =>
          simp [process, resolve_record, get_status, getPair, List.lookup, get_bytes, get_blob_date,
            process_original, tick, set_bytes, save_status, St.init, get_docling, derive_docling,
            bump_convert, check_markdown, bump_export, hpd, bdi, bdo, bmd, bmi, borg] at hrun
          obtain ⟨hm, hs⟩ := hrun
          subst hm
          subst hs
          refine ⟨rfl, rfl, by simp [hmd], d, 4, ?_⟩
          simp [getPair, List.lookup]
      | true =>
          simp [process, resolve_record, get_status, getPair, List.lookup, get_bytes, get_blob_date,
            process_original, tick, set_bytes, save_status, St.init, get_docling, derive_docling,
            bump_convert, check_markdown, bump_export, hpd, bdi, bdo, bmd, bmi, borg] at hrun
          obtain ⟨hm, hs⟩ := hrun
          subst hm
          subst hs
          refine ⟨rfl, rfl, by simp, d, 4, ?_⟩
          simp [getPair, List.lookup, bdi, bdm]
    · have borg : (markdown_key (env.blake3_hex b) ==
          original_key (env.blake3_hex b) (mimeExt ct)) = false := by
        apply key_beq_false_of_ne
        intro he
        exact hmd ((original_key_eq_markdown_iff _ _).mp he.symm)
      simp [process, resolve_record, get_status, getPair, List.lookup, get_bytes, get_blob_date,
        process_original, tick, set_bytes, save_status, St.init, get_docling, derive_docling,
        bump_convert, check_markdown, bump_export, hpd, bdi, bdo, bmd, bmi, borg] at hrun
      obtain ⟨hm, hs⟩ := hrun
      subst hm
      subst hs
      refine ⟨rfl, rfl, by simp [hmd], d, 4, ?_⟩
      simp [getPair, List.lookup, bdi, bdm]

/-- Witness for `process_stage_marks` at a concrete fresh run. -/
theorem process_stage_marks_witness :
    mW1.docling_date = none ∧ mW1.chunk_date = none ∧
    mW1.markdown_date.isSome = (false || !(mimeExt "text/plain" == ".md")) ∧
    ∃ d t, getPair stW1 (docling_key (svcEnvW.blake3_hex [0])) = some (.docling d, t) :=
  process_stage_marks svcEnvW [0] "text/plain" "f" false mW1 stW1 (by rfl)

theorem get_status_ok_of_record {st : St D} {h : String} {m : ContentModel}
    (hb : get_bytes st (index_key h) = some (.record m)) :
    get_status st h = .ok (some m) := by
  unfold get_status
  rw [hb]

theorem get_status_ok_of_none {st : St D} {h : String}
    (hb : get_bytes st (index_key h) = none) :
    get_status st h = .ok none := by
  unfold get_status
  rw [hb]

/-- Lemma A: from a settled state, a non-overwriting `process` call with the
    same arguments returns the same record, writes nothing, and performs no
    derivation. -/
theorem process_settled (env : SvcEnv D) (b : List Nat) (ct fn : String) (m : ContentModel)
    (st : St D) (hs : Settled env b ct fn m st) :
    (process env b ct fn false st).1 = .ok m ∧
    (process env b ct fn false st).2.store = st.store ∧
    (process env b ct fn false st).2.convertCalls = st.convertCalls ∧
    (process env b ct fn false st).2.exportCalls = st.exportCalls := by
  obtain ⟨⟨d, td, hdock⟩, hcase⟩ := hs
  rcases hcase with ⟨hidx, hhash, hmdc⟩ | ⟨hidx, horg, hmdp, hform⟩
  · -- index holds m
    have hres : resolve_record env b ct fn false st = .ok (m, st) := by
      unfold resolve_record
      rw [get_status_ok_of_record hidx]
    have hdd : get_blob_date st (docling_key m.hash) = some td := by
      rw [hhash]; simp [get_blob_date, hdock]
    have hdb : get_bytes st (docling_key m.hash) = some (.docling d) := by
      rw [hhash]; simp [get_bytes, hdock]
    have hgd : get_docling env m b false 0 st = (.ok d, st) := by
      unfold get_docling
      rw [hdd, hdb]
      simp [validate_docling]
    rcases hmm : m.markdown_date with _ | v
    · -- markdown marker unset: the read path of _check_markdown
      have hmds : (get_blob_date st (markdown_key (env.blake3_hex b))).isSome = true :=
        hmdc hmm
      have hno : (get_blob_date st (markdown_key (env.blake3_hex b))).isNone = false := by
        rcases ho : get_blob_date st (markdown_key (env.blake3_hex b)) with _ | v2
        · rw [ho] at hmds; simp at hmds
        · simp
      have hcm : check_markdown env m d false st = (m, st) := by
        simp only [check_markdown]
        rw [hhash, hno]
        simp
      simp [process, hres, hgd, hmm, hcm]
    · simp [process, hres, hgd, hmm]
  · -- index absent: the record is rebuilt from the stored original's date
    have hh : m.hash = env.blake3_hex b := by rw [hform]
    have hres : resolve_record env b ct fn false st =
        .ok (m, { st with clock := st.clock + 1 }) := by
      unfold resolve_record
      rw [get_status_ok_of_none hidx]
      simp only [tick, process_original]
      have horg' : get_blob_date { st with clock := st.clock + 1 }
          (original_key (env.blake3_hex b) (mimeExt ct)) = some m.created_at := horg
      rw [horg']
      simp only [Option.isNone_some, Bool.false_or, Bool.false_eq_true, if_false,
        Option.getD_some]
      rw [← hform]
    have hdd : get_blob_date { st with clock := st.clock + 1 } (docling_key m.hash) = some td := by
      rw [hh]
      show (getPair st (docling_key (env.blake3_hex b))).map (fun p => p.2) = some td
      rw [hdock]
      rfl
    have hdb : get_bytes { st with clock := st.clock + 1 } (docling_key m.hash) =
        some (.docling d) := by
      rw [hh]
      show (getPair st (docling_key (env.blake3_hex b))).map (fun p => p.1) = some (.docling d)
      rw [hdock]
      rfl
    have hgd : get_docling env m b false 0 { st with clock := st.clock + 1 } =
        (.ok d, { st with clock := st.clock + 1 }) := by
      unfold get_docling
      rw [hdd, hdb]
      simp [validate_docling]
    have hmm : m.markdown_date = none := by rw [hform]
    have hmds : (get_blob_date { st with clock := st.clock + 1 }
        (markdown_key (env.blake3_hex b))).isSome = true := hmdp
    have hno : (get_blob_date { st with clock := st.clock + 1 }
        (markdown_key (env.blake3_hex b))).isNone = false := by
      rcases ho : get_blob_date { st with clock := st.clock + 1 }
          (markdown_key (env.blake3_hex b)) with _ | v2
      · rw [ho] at hmds; simp at hmds
      · simp
    have hcm : check_markdown env m d false { st with clock := st.clock + 1 } =
        (m, { st with clock := st.clock + 1 }) := by
      simp only [check_markdown]
      rw [hh, hno]
      simp
    simp [process, hres, hgd, hmm, hcm]

theorem getPair_of_get_bytes {st : St D} {k : String} {w : BlobVal D}
    (h : get_bytes st k = some w) : ∃ t, getPair st k = some (w, t) := by
  unfold get_bytes at h
  rcases hp : getPair st k with _ | pr
  · rw [hp] at h
    simp at h
  · rcases pr with ⟨pv, pt⟩
    rw [hp] at h
    simp at h
    exact ⟨pt, by rw [h]⟩

/-- Frame lemma: a successful `get_docling` leaves a valid docling artifact
    at the docling key, touches no other key, and performs no export. -/
theorem get_docling_post (env : SvcEnv D) (model : ContentModel) (b : List Nat) (ow : Bool)
    (a : Nat) (st : St D) (d : D) (st' : St D)
    (h : get_docling env model b ow a st = (.ok d, st')) :
    (∃ t, getPair st' (docling_key model.hash) = some (.docling d, t)) ∧
    (∀ k, (k == docling_key model.hash) = false → getPair st' k = getPair st k) ∧
    st'.exportCalls = st.exportCalls := by
  have hderive : derive_docling env model b st = (.ok d, st') →
      (∃ t, getPair st' (docling_key model.hash) = some (.docling d, t)) ∧
      (∀ k, (k == docling_key model.hash) = false → getPair st' k = getPair st k) ∧
      st'.exportCalls = st.exportCalls := by
    intro hd
    unfold derive_docling at hd
    split at hd
    · simp at hd
    · next d0 heq =>
        rw [Prod.mk.injEq] at hd
        obtain ⟨hd1, hd2⟩ := hd
        obtain rfl : d0 = d := Except.ok.inj hd1
        subst hd2
        refine ⟨⟨(bump_convert st).clock, getPair_set_self _ _ _⟩, ?_, rfl⟩
        intro k hk
        exact getPair_set_other _ _ _ _ hk
  unfold get_docling at h
  split at h
  · exact hderive h
  · rcases hb : get_bytes st (docling_key model.hash) with _ | v
    · simp only [hb] at h
      split at h
      · simp at h
      · exact hderive h
    · simp only [hb] at h
      rcases hvd : validate_docling v with _ | docling
      · simp only [hvd] at h
        split at h
        · simp at h
        · exact hderive h
      · simp only [hvd] at h
        rw [Prod.mk.injEq] at h
        obtain ⟨h1, h2⟩ := h
        have hdd : docling = d := Except.ok.inj h1
        subst h2
        have hvv : v = BlobVal.docling docling := by
          cases v <;> simp [validate_docling] at hvd
          rw [hvd]
        rw [hvv, hdd] at hb
        obtain ⟨t, hp⟩ := getPair_of_get_bytes hb
        exact ⟨⟨t, hp⟩, fun k _ => rfl, rfl⟩

theorem get_status_ok_some_inv {st : St D} {h : String} {m : ContentModel}
    (hg : get_status st h = .ok (some m)) :
    get_bytes st (index_key h) = some (.record m) := by
  unfold get_status at hg
  split at hg
  · simp at hg
  · next m0 heq =>
      rw [Except.ok.injEq, Option.some.injEq] at hg
      subst hg
      exact heq
  · simp at hg

theorem get_status_ok_none_inv {st : St D} {h : String}
    (hg : get_status st h = .ok none) :
    get_bytes st (index_key h) = none := by
  unfold get_status at hg
  split at hg
  · next heq => exact heq
  · simp at hg
  · simp at hg

/-- What a successful record-resolution guarantees: the model is keyed by the
    content hash, and either the index now stores exactly this model, or the
    index is untouched-and-absent and the model is the default record carrying
    the stored original's creation date. -/
theorem resolve_record_post (env : SvcEnv D) (b : List Nat) (ct fn : String) (ow : Bool)
    (st₀ : St D) (model : ContentModel) (stA : St D)
    (hkey : IndexKeyed st₀ (env.blake3_hex b))
    (h : resolve_record env b ct fn ow st₀ = .ok (model, stA)) :
    model.hash = env.blake3_hex b ∧
    ((get_bytes stA (index_key (env.blake3_hex b)) = some (.record model))
     ∨
     (get_bytes stA (index_key (env.blake3_hex b)) = none ∧
      get_blob_date stA (original_key (env.blake3_hex b) (mimeExt ct)) = some model.created_at ∧
      model = { hash := env.blake3_hex b, content_type := ct, filename := fn,
                size := b.length, created_at := model.created_at })) := by
  unfold resolve_record at h
  split at h
  · simp at h
  · next r hgs =>
      split at h
      · next m0 =>
          rw [Except.ok.injEq, Prod.mk.injEq] at h
          obtain ⟨hm, hs⟩ := h
          subst hm
          subst hs
          have hb := get_status_ok_some_inv hgs
          exact ⟨hkey _ hb, Or.inl hb⟩
      · next harm =>
          rw [Except.ok.injEq] at h
          simp only [process_original, tick] at h
          split at h
          · rw [Prod.mk.injEq] at h
            obtain ⟨hm, hs⟩ := h
            subst hm
            subst hs
            refine ⟨rfl, Or.inl ?_⟩
            simp [get_bytes, save_status, getPair_set_self]
          · next hcond =>
              rw [Prod.mk.injEq] at h
              obtain ⟨hm, hs⟩ := h
              subst hm
              subst hs
              have how : ow = false := by
                cases ow
                · rfl
                · simp at hcond
              subst how
              have hr : r = none := by
                cases r with
                | none => rfl
                | some m0 => exact absurd rfl (by intro hh; exact harm m0 hh rfl)
              subst hr
              have hb := get_status_ok_none_inv hgs
              refine ⟨rfl, Or.inr ⟨hb, ?_, rfl⟩⟩
              rcases ho : get_blob_date { st₀ with clock := st₀.clock + 1 }
                  (original_key (env.blake3_hex b) (mimeExt ct)) with _ | v
              · rw [ho] at hcond
                simp at hcond
              · simp

/-- Lemma B: a successful `process` run from a well-keyed state leaves the
    store settled for its hash and returned record. -/
theorem process_settles (env : SvcEnv D) (b : List Nat) (ct fn : String) (ow : Bool)
    (m : ContentModel) (st₀ st₁ : St D)
    (hkey : IndexKeyed st₀ (env.blake3_hex b))
    (h1 : process env b ct fn ow st₀ = (.ok m, st₁)) :
    Settled env b ct fn m st₁ := by
  unfold process at h1
  split at h1
  · simp at h1
  · next model stA hres =>
      split at h1
      · simp at h1
      · next docling st2 hgd =>
          obtain ⟨hhash, hor⟩ := resolve_record_post env b ct fn ow st₀ model stA hkey hres
          obtain ⟨⟨td, hdock⟩, hframe, hexp⟩ :=
            get_docling_post env model b ow 0 stA docling st2 hgd
          rw [hhash] at hdock hframe
          have bid : (index_key (env.blake3_hex b) == docling_key (env.blake3_hex b)) = false :=
            key_beq_false_of_ne (index_key_ne_docling _)
          have bdi : (docling_key (env.blake3_hex b) == index_key (env.blake3_hex b)) = false :=
            key_beq_false_of_ne (Ne.symm (index_key_ne_docling _))
          have bdm : (docling_key (env.blake3_hex b) == markdown_key (env.blake3_hex b)) = false :=
            key_beq_false_of_ne (docling_key_ne_markdown _)
          have bod : (original_key (env.blake3_hex b) (mimeExt ct) ==
              docling_key (env.blake3_hex b)) = false :=
            key_beq_false_of_ne (original_key_ne_docling _ _)
          have hidx2 : get_bytes st2 (index_key (env.blake3_hex b)) =
              get_bytes stA (index_key (env.blake3_hex b)) := by
            simp [get_bytes, hframe _ bid]
          have horg2 : get_blob_date st2 (original_key (env.blake3_hex b) (mimeExt ct)) =
              get_blob_date stA (original_key (env.blake3_hex b) (mimeExt ct)) := by
            simp [get_blob_date, hframe _ bod]
          by_cases hmdn : model.markdown_date.isNone = true
          · rw [if_pos hmdn] at h1
            simp only [check_markdown] at h1
            rw [hhash] at h1
            by_cases hcmc : ((get_blob_date st2 (markdown_key (env.blake3_hex b))).isNone || ow) = true
            · -- markdown write path: the final record is saved to the index
              rw [if_pos hcmc] at h1
              rw [Prod.mk.injEq] at h1
              obtain ⟨hm1, hs1⟩ := h1
              have hmm := Except.ok.inj hm1
              subst hmm
              subst hs1
              constructor
              · refine ⟨docling, td, ?_⟩
                simp only [save_status, set_bytes, tick, bump_export, getPair, List.lookup,
                  bdi, bdm]
                exact hdock
              · refine Or.inl ⟨?_, rfl, ?_⟩
                · simp only [save_status, set_bytes, tick, bump_export, get_bytes, getPair,
                    List.lookup, beq_self_eq_true]
                  rfl
                · intro hcontra
                  simp at hcontra
            · -- markdown read path: nothing written after get_docling
              rw [if_neg hcmc] at h1
              rw [Prod.mk.injEq] at h1
              obtain ⟨hm1, hs1⟩ := h1
              have hmm := Except.ok.inj hm1
              subst hmm
              subst hs1
              have hmds : (get_blob_date st2 (markdown_key (env.blake3_hex b))).isSome = true := by
                rcases ho : get_blob_date st2 (markdown_key (env.blake3_hex b)) with _ | v
                · rw [ho] at hcmc
                  simp at hcmc
                · simp
              refine ⟨⟨docling, td, hdock⟩, ?_⟩
              rcases hor with hidxA | ⟨hidxN, horgA, hformA⟩
              · exact Or.inl ⟨hidx2.trans hidxA, hhash, fun _ => hmds⟩
              · exact Or.inr ⟨hidx2.trans hidxN, horg2.trans horgA, hmds, hformA⟩
          · -- markdown marker already set: the record is returned as is
            rw [if_neg hmdn] at h1
            rw [Prod.mk.injEq] at h1
            obtain ⟨hm1, hs1⟩ := h1
            have hmm := Except.ok.inj hm1
            subst hmm
            subst hs1
            refine ⟨⟨docling, td, hdock⟩, ?_⟩
            rcases hor with hidxA | ⟨hidxN, horgA, hformA⟩
            · refine Or.inl ⟨hidx2.trans hidxA, hhash, fun hnone => ?_⟩
              rw [hnone] at hmdn
              simp at hmdn
            · rw [hformA] at hmdn
              simp at hmdn

/-- C2.  Idempotent staging: if `process` succeeds on bytes `b` from a state
    whose index entry for `blake3(b)` (if any) is keyed consistently, then an
    immediately following call with the same arguments and
    `overwrite = false` returns an equal record, leaves the blob store
    byte-for-byte unchanged (so every stage timestamp is unchanged), and
    performs no derivation: neither the document converter nor the markdown
    exporter is invoked again. -/
theorem process_idempotent (env : SvcEnv D) (b : List Nat) (ct fn : String) (ow : Bool)
    (m : ContentModel) (st₀ st₁ : St D)
    (hkey : IndexKeyed st₀ (env.blake3_hex b))
    (h1 : process env b ct fn ow st₀ = (.ok m, st₁)) :
    (process env b ct fn false st₁).1 = .ok m ∧
    (process env b ct fn false st₁).2.store = st₁.store ∧
    (process env b ct fn false st₁).2.convertCalls = st₁.convertCalls ∧
    (process env b ct fn false st₁).2.exportCalls = st₁.exportCalls :=
  process_settled env b ct fn m st₁ (process_settles env b ct fn ow m st₀ st₁ hkey h1)

/-- Witness for `process_idempotent`: a concrete first run from the empty
    store, whose second run returns the same record with nothing re-derived. -/
theorem process_idempotent_witness :
    (process svcEnvW [0] "text/plain" "f" false stW1).1 = .ok mW1 ∧
    (process svcEnvW [0] "text/plain" "f" false stW1).2.store = stW1.store ∧
    (process svcEnvW [0] "text/plain" "f" false stW1).2.convertCalls = stW1.convertCalls ∧
    (process svcEnvW [0] "text/plain" "f" false stW1).2.exportCalls = stW1.exportCalls :=
  process_idempotent svcEnvW [0] "text/plain" "f" false mW1 St.init stW1
    (by intro m hm; simp [St.init, get_bytes, getPair, List.lookup] at hm)
    (by rfl)

/-- Witness for `goodness_applied_pre_strip` at concrete inputs. -/
theorem goodness_applied_pre_strip_witness :
    clean_chunk (pystr "Report CONFIDENTIAL body")
        (repeated_chunks [pystr "CONFIDENTIAL", pystr "CONFIDENTIAL", pystr "Report CONFIDENTIAL body"])
      ∈ filter_chunks [pystr "CONFIDENTIAL", pystr "CONFIDENTIAL", pystr "Report CONFIDENTIAL body"] ∧
    (filter_chunks [pystr "CONFIDENTIAL", pystr "CONFIDENTIAL", pystr "Report CONFIDENTIAL body"]).length =
      ([pystr "CONFIDENTIAL", pystr "CONFIDENTIAL", pystr "Report CONFIDENTIAL body"].filter
        (fun d => [pystr "CONFIDENTIAL", pystr "CONFIDENTIAL", pystr "Report CONFIDENTIAL body"].count d == 1
          && is_good_chunk d)).length :=
  goodness_applied_pre_strip _ _ (by decide) (by decide) (by decide)

end PyDocling
